import Mathlib

/-!
Shallow embedding of `src/II_Wilk_Matysek/src/main.rs`, a pure IPv6
prefix-overlap checker: a 128-bit address stored as two `u64` halves,
CIDR parsing (with `::` zero compression), network-mask derivation and
range-overlap testing.

Machine integers (`u64`, `u16`, `u8`) are modelled as `Nat` with explicit
`% 2 ^ 64` truncation wherever a Rust operation could exceed the width;
input strings are modelled as `List Char`.
-/

/-- Rust `u64::MAX`, written `!0u64` in the source. -/
def U64MAX : Nat := 2 ^ 64 - 1

/-- `struct IPv6Addr { high: u64, low: u64 }`: a 128-bit address stored as
two 64-bit halves (`high` = most-significant half). -/
structure IPv6Addr where
  high : Nat
  low : Nat
deriving DecidableEq, Repr

/-- The `u64` range invariant on both halves (which in Rust is automatic
from the field types). -/
def IPv6Addr.Wf (a : IPv6Addr) : Prop :=
  a.high < 2 ^ 64 ∧ a.low < 2 ^ 64

instance (a : IPv6Addr) : Decidable a.Wf := by
  unfold IPv6Addr.Wf; exact inferInstance

/-- `impl BitAnd for IPv6Addr`: halfwise `&`. -/
def IPv6Addr.bitand (a b : IPv6Addr) : IPv6Addr :=
  ⟨a.high &&& b.high, a.low &&& b.low⟩

/-- `impl BitOr for IPv6Addr`: halfwise `|`. -/
def IPv6Addr.bitor (a b : IPv6Addr) : IPv6Addr :=
  ⟨a.high ||| b.high, a.low ||| b.low⟩

/-- `impl Not for IPv6Addr`: halfwise `!`, the 64-bit complement, i.e.
XOR with `u64::MAX`. -/
def IPv6Addr.bitnot (a : IPv6Addr) : IPv6Addr :=
  ⟨a.high ^^^ U64MAX, a.low ^^^ U64MAX⟩

/-- The `<=` of the derived `PartialOrd`/`Ord` on `IPv6Addr`: lexicographic
comparison on the fields in declaration order, `high` then `low`. -/
def IPv6Addr.le (a b : IPv6Addr) : Bool :=
  decide (a.high < b.high) || (decide (a.high = b.high) && decide (a.low ≤ b.low))

/-- The numeric value `high * 2^64 + low` of an address: the single unsigned
128-bit integer the pair of halves stands for. -/
def IPv6Addr.toNat (a : IPv6Addr) : Nat :=
  a.high * 2 ^ 64 + a.low

/-- `struct IPv6Prefix { addr: IPv6Addr, len: u8 }`. -/
structure IPv6Prefix where
  addr : IPv6Addr
  len : Nat
deriving DecidableEq, Repr

/-- `IPv6Prefix::mask`.  A Rust `u64` shift `x << k` (with `k < 64`) is
embedded as `(x <<< k) % 2 ^ 64`. -/
def IPv6Prefix.mask (p : IPv6Prefix) : IPv6Addr :=
  let m := p.len
  if m = 0 then ⟨0, 0⟩
  else
    let high := if 64 ≤ m then U64MAX else (U64MAX <<< (64 - m)) % 2 ^ 64
    let low := if m ≤ 64 then 0 else (U64MAX <<< (128 - m)) % 2 ^ 64
    ⟨high, low⟩

/-- The number of host (unmasked) bits that fall in the high half for a
prefix length `L` (used only to state and prove properties of `mask`). -/
def hostHigh (L : Nat) : Nat := 64 - min L 64

/-- The number of host (unmasked) bits that fall in the low half for a
prefix length `L` (used only to state and prove properties of `mask`). -/
def hostLow (L : Nat) : Nat := 128 - max L 64

/-- A 64-bit left shift that fails (instead of producing a value) when the
shift amount is 64 or more, the amounts for which a fixed-width `u64` shift
is not well defined. -/
def shl64 (x n : Nat) : Option Nat :=
  if n < 64 then some ((x <<< n) % 2 ^ 64) else none

/-- `IPv6Prefix::mask` with every shift routed through `shl64`: identical
branch structure, but it records that no shift amount of 64 or more is ever
executed on the branch that executes it. -/
def IPv6Prefix.maskChecked (p : IPv6Prefix) : Option IPv6Addr :=
  let m := p.len
  if m = 0 then some ⟨0, 0⟩
  else
    match (if 64 ≤ m then some U64MAX else shl64 U64MAX (64 - m)),
          (if m ≤ 64 then some 0 else shl64 U64MAX (128 - m)) with
    | some high, some low => some ⟨high, low⟩
    | _, _ => none

/-- `IPv6Prefix::range`: `(network, broadcast)` where
`network = addr & mask` and `broadcast = network | !mask`. -/
def IPv6Prefix.range (p : IPv6Prefix) : IPv6Addr × IPv6Addr :=
  let m := p.mask
  let net := p.addr.bitand m
  let bcast := net.bitor m.bitnot
  (net, bcast)

/-- `IPv6Prefix::overlaps`: the closed-interval intersection test
`s1 <= e2 && s2 <= e1` on the two ranges. -/
def IPv6Prefix.overlaps (p other : IPv6Prefix) : Bool :=
  let s1 := p.range.1
  let e1 := p.range.2
  let s2 := other.range.1
  let e2 := other.range.2
  s1.le e2 && s2.le e1

/-! ## Parsing (`impl FromStr for IPv6Prefix`) -/

/-- The parse-error kinds, named as in the specification's error taxonomy
(the source carries them as message strings). -/
inductive ParseErr where
  | MissingSeparator
  | MalformedLength
  | LengthOutOfRange
  | MultipleZeroCompression
  | TooManySegments
  | MalformedSegment
deriving DecidableEq, Repr

instance {ε α : Type} [DecidableEq ε] [DecidableEq α] : DecidableEq (Except ε α) :=
  fun a b =>
    match a, b with
    | Except.ok x, Except.ok y => decidable_of_iff (x = y) (by simp)
    | Except.error e, Except.error f => decidable_of_iff (e = f) (by simp)
    | Except.ok _, Except.error _ => isFalse (by simp)
    | Except.error _, Except.ok _ => isFalse (by simp)

/-- Rust `str::split_once('/')`: the pieces before and after the first `/`,
or `none` when there is no `/`. -/
def splitOnceSlash : List Char → Option (List Char × List Char)
  | [] => none
  | c :: rest =>
    if c = '/' then some ([], rest)
    else (splitOnceSlash rest).map fun q => (c :: q.1, q.2)

/-- The value of a decimal ASCII digit, as accepted by Rust's integer
`FromStr` (only `'0'..='9'`). -/
def decDigit (c : Char) : Option Nat :=
  if '0' ≤ c ∧ c ≤ '9' then some (c.toNat - '0'.toNat) else none

/-- Accumulate the value of a decimal digit string; `none` at the first
non-digit character. -/
def decDigitsVal : List Char → Nat → Option Nat
  | [], acc => some acc
  | c :: cs, acc =>
    match decDigit c with
    | some d => decDigitsVal cs (acc * 10 + d)
    | none => none

/-- The sign-and-digits grammar shared by Rust's `from_str`/`from_str_radix`
on unsigned types: an optional leading `+` (a `-` is not a sign for an
unsigned type and fails as a digit), then one or more decimal digits; the
value is unbounded here, the width check comes in the callers. -/
def parseDecNat (s : List Char) : Option Nat :=
  match s with
  | [] => none
  | c :: rest =>
    if c = '+' then
      if rest.isEmpty then none else decDigitsVal rest 0
    else decDigitsVal (c :: rest) 0

/-- `len_str.parse::<u8>()`: Rust accumulates with checked arithmetic, which
fails exactly when the digit string's value exceeds `u8::MAX` (the checked
accumulator grows monotonically, so a step overflows iff the final value
overflows). -/
def parseU8 (s : List Char) : Option Nat :=
  match parseDecNat s with
  | some v => if v ≤ 255 then some v else none
  | none => none

/-- The value of a hexadecimal ASCII digit (`char::to_digit(16)`). -/
def hexDigit (c : Char) : Option Nat :=
  if '0' ≤ c ∧ c ≤ '9' then some (c.toNat - '0'.toNat)
  else if 'a' ≤ c ∧ c ≤ 'f' then some (c.toNat - 'a'.toNat + 10)
  else if 'A' ≤ c ∧ c ≤ 'F' then some (c.toNat - 'A'.toNat + 10)
  else none

/-- Accumulate the value of a hex digit string; `none` at the first
non-hex-digit character. -/
def hexDigitsVal : List Char → Nat → Option Nat
  | [], acc => some acc
  | c :: cs, acc =>
    match hexDigit c with
    | some d => hexDigitsVal cs (acc * 16 + d)
    | none => none

/-- The unbounded value behind `u16::from_str_radix(s, 16)`: optional
leading `+`, then one or more hex digits. -/
def parseHexNat (s : List Char) : Option Nat :=
  match s with
  | [] => none
  | c :: rest =>
    if c = '+' then
      if rest.isEmpty then none else hexDigitsVal rest 0
    else hexDigitsVal (c :: rest) 0

/-- `u16::from_str_radix(h, 16)`: as `parseHexNat`, with the checked-overflow
bound `u16::MAX` (same monotone-accumulator argument as for `parseU8`). -/
def parseU16Hex (s : List Char) : Option Nat :=
  match parseHexNat s with
  | some v => if v ≤ 65535 then some v else none
  | none => none

/-- Helper for `str::split("::")`: accumulates the current piece in reverse. -/
def splitCCAux : List Char → List Char → List (List Char)
  | [], acc => [acc.reverse]
  | ':' :: ':' :: rest, acc => acc.reverse :: splitCCAux rest []
  | c :: rest, acc => splitCCAux rest (c :: acc)

/-- Rust `ip_str.split("::")`: the pieces between non-overlapping occurrences
of `::`, scanned left to right; always at least one piece. -/
def splitCC (s : List Char) : List (List Char) :=
  splitCCAux s []

/-- Helper for `str::split(':')`: accumulates the current piece in reverse. -/
def splitColonAux : List Char → List Char → List (List Char)
  | [], acc => [acc.reverse]
  | c :: rest, acc =>
    if c = ':' then acc.reverse :: splitColonAux rest []
    else splitColonAux rest (c :: acc)

/-- Rust `str::split(':')`. -/
def splitColon (s : List Char) : List (List Char) :=
  splitColonAux s []

/-- `let head = if parts[0].is_empty() { vec![] } else { parts[0].split(':').collect() }`.
`parts` comes from `split("::")`, which never returns an empty list, so the
`[]` case is unreachable at the call site. -/
def headGroups (parts : List (List Char)) : List (List Char) :=
  match parts with
  | p0 :: _ => if p0.isEmpty then [] else splitColon p0
  | [] => []

/-- `let tail = if parts.len()==2 && !parts[1].is_empty() { parts[1].split(':').collect() } else { vec![] }`. -/
def tailGroups (parts : List (List Char)) : List (List Char) :=
  match parts with
  | [_, p1] => if p1.isEmpty then [] else splitColon p1
  | _ => []

/-- One iteration of the segment loops:
`u16::from_str_radix(h, 16).map_err(|_| "Bledny segment IPv6")`. -/
def parseSeg (g : List Char) : Except ParseErr Nat :=
  match parseU16Hex g with
  | some v => Except.ok v
  | none => Except.error ParseErr.MalformedSegment

/-- The segment loops: parse the groups in order, stopping at the first
failing group. -/
def parseSegs : List (List Char) → Except ParseErr (List Nat)
  | [] => Except.ok []
  | g :: gs =>
    match parseSeg g with
    | Except.error e => Except.error e
    | Except.ok v =>
      match parseSegs gs with
      | Except.error e => Except.error e
      | Except.ok vs => Except.ok (v :: vs)

/-- The final packing of the eight 16-bit groups into the two `u64` halves,
group 0 in the most-significant 16 bits of `high`.  At the call site `segs`
always has exactly 8 elements, so `getD _ 0` agrees with the Rust index
`segs[i]`; each shifted cast `(segs[i] as u64) << k` is embedded with its
`u64` truncation. -/
def packAddr (segs : List Nat) : IPv6Addr :=
  ⟨((segs.getD 0 0 <<< 48) % 2 ^ 64) ||| ((segs.getD 1 0 <<< 32) % 2 ^ 64)
     ||| ((segs.getD 2 0 <<< 16) % 2 ^ 64) ||| segs.getD 3 0,
   ((segs.getD 4 0 <<< 48) % 2 ^ 64) ||| ((segs.getD 5 0 <<< 32) % 2 ^ 64)
     ||| ((segs.getD 6 0 <<< 16) % 2 ^ 64) ||| segs.getD 7 0⟩

/-- `impl FromStr for IPv6Prefix` (`from_str`), over the characters of the
input string. -/
def IPv6Prefix.fromStr (s : List Char) : Except ParseErr IPv6Prefix :=
  match splitOnceSlash s with
  | none => Except.error ParseErr.MissingSeparator
  | some (ipStr, lenStr) =>
    match parseU8 lenStr with
    | none => Except.error ParseErr.MalformedLength
    | some len =>
      if 128 < len then Except.error ParseErr.LengthOutOfRange
      else
        let parts := splitCC ipStr
        if 2 < parts.length then Except.error ParseErr.MultipleZeroCompression
        else
          let head := headGroups parts
          let tail := tailGroups parts
          if 8 < head.length + tail.length then Except.error ParseErr.TooManySegments
          else
            match parseSegs head with
            | Except.error e => Except.error e
            | Except.ok hs =>
              match parseSegs tail with
              | Except.error e => Except.error e
              | Except.ok ts =>
                Except.ok
                  ⟨packAddr (hs ++ List.replicate (8 - (head.length + tail.length)) 0 ++ ts),
                   len⟩

/-- The textual form named by claim C5: a string of 1 to 4 hexadecimal
digits (this follows the claim's words, for comparison with the source's
`u16::from_str_radix`). -/
def specHex1to4 (g : List Char) : Prop :=
  1 ≤ g.length ∧ g.length ≤ 4 ∧ ∀ c ∈ g, (hexDigit c).isSome

instance (g : List Char) : Decidable (specHex1to4 g) := by
  unfold specHex1to4; exact inferInstance

/-- The textual form that `u16::from_str_radix(_, 16)` actually accepts: an
optional leading `+`, then a nonempty string of hexadecimal digits whose
value is at most `0xFFFF` (so leading zeros may push the digit count past
4). -/
def specHexGroup (g : List Char) : Prop :=
  ∃ d v, (g = d ∨ g = '+' :: d) ∧ d ≠ [] ∧ hexDigitsVal d 0 = some v ∧ v ≤ 65535

/-! ## Arithmetic facts about top-bit masks

Every mask half produced by `IPv6Prefix.mask` has the shape `2 ^ 64 - 2 ^ j`
(the top `64 - j` bits set); the lemmas in this section characterise `&&&`,
`|||` and `^^^` against such values. -/

theorem testBit_two_pow_sub_two_pow {n j : Nat} (h : j ≤ n) (i : Nat) :
    (2 ^ n - 2 ^ j).testBit i = (decide (j ≤ i) && decide (i < n)) := by
  have e : 2 ^ n - 2 ^ j = (2 ^ (n - j) - 1) <<< j := by
    rw [Nat.shiftLeft_eq, Nat.sub_mul, Nat.one_mul, ← Nat.pow_add,
      Nat.sub_add_cancel h]
  rw [e, Nat.testBit_shiftLeft, Nat.testBit_two_pow_sub_one]
  by_cases h1 : j ≤ i
  · by_cases h2 : i < n <;> simp [h1, h2] <;> omega
  · simp [h1, Nat.lt_of_not_le h1]

theorem and_top_mask {j y : Nat} (hj : j ≤ 64) (hy : y < 2 ^ 64) :
    y &&& (2 ^ 64 - 2 ^ j) = y / 2 ^ j * 2 ^ j := by
  have e : y / 2 ^ j * 2 ^ j = (y >>> j) <<< j := by
    rw [Nat.shiftRight_eq_div_pow, Nat.shiftLeft_eq]
  apply Nat.eq_of_testBit_eq
  intro i
  rw [Nat.testBit_and, testBit_two_pow_sub_two_pow hj, e, Nat.testBit_shiftLeft,
    Nat.testBit_shiftRight]
  by_cases h1 : j ≤ i
  · have e2 : j + (i - j) = i := by omega
    rw [e2]
    by_cases h2 : i < 64
    · simp [h1, h2, ge_iff_le]
    · have hf : y.testBit i = false :=
        Nat.testBit_lt_two_pow
          (Nat.lt_of_lt_of_le hy (Nat.pow_le_pow_right (by norm_num) (by omega)))
      simp [h1, h2, hf, ge_iff_le]
  · simp [h1, ge_iff_le]

theorem testBit_split {j y : Nat} (q : Nat) (hy : y < 2 ^ j) (i : Nat) :
    (2 ^ j * q + y).testBit i = if i < j then y.testBit i else q.testBit (i - j) := by
  rcases Nat.lt_or_ge i j with h | h
  · rw [if_pos h, Nat.testBit_to_div_mod, Nat.testBit_to_div_mod]
    have e1 : 2 ^ j * q + y = y + 2 ^ (j - i) * q * 2 ^ i := by
      rw [Nat.mul_right_comm, ← Nat.pow_add, Nat.sub_add_cancel (Nat.le_of_lt h),
        Nat.add_comm]
    have e2 : 2 ^ (j - i) * q = 2 ^ (j - i - 1) * q * 2 := by
      have e3 : (2:Nat) ^ (j - i) = 2 ^ (j - i - 1) * 2 := by
        rw [← Nat.pow_succ]
        congr 1
        omega
      rw [e3]
      ring
    rw [e1, Nat.add_mul_div_right _ _ (Nat.two_pow_pos i), e2,
      Nat.add_mul_mod_self_right]
  · rw [if_neg (Nat.not_lt.mpr h), Nat.testBit_to_div_mod, Nat.testBit_to_div_mod]
    have e1 : (2 ^ j * q + y) / 2 ^ i = q / 2 ^ (i - j) := by
      rw [show (2:Nat) ^ i = 2 ^ j * 2 ^ (i - j) by
            rw [← Nat.pow_add, Nat.add_sub_cancel' h],
        ← Nat.div_div_eq_div_mul, Nat.add_comm,
        Nat.add_mul_div_left _ _ (Nat.two_pow_pos j), Nat.div_eq_of_lt hy,
        Nat.zero_add]
    rw [e1]

theorem or_of_disjoint {j x y : Nat} (hx : x % 2 ^ j = 0) (hy : y < 2 ^ j) :
    x ||| y = x + y := by
  obtain ⟨q, rfl⟩ : ∃ q, x = 2 ^ j * q :=
    ⟨x / 2 ^ j, (Nat.mul_div_cancel' (Nat.dvd_of_mod_eq_zero hx)).symm⟩
  apply Nat.eq_of_testBit_eq
  intro i
  have h0 := testBit_split (y := 0) q (Nat.two_pow_pos j) i
  rw [Nat.add_zero] at h0
  rw [Nat.testBit_or, h0, testBit_split q hy i]
  rcases Nat.lt_or_ge i j with h | h
  · simp [h]
  · have hf : y.testBit i = false :=
      Nat.testBit_lt_two_pow
        (Nat.lt_of_lt_of_le hy (Nat.pow_le_pow_right (by norm_num) h))
    simp [Nat.not_lt.mpr h, hf]

theorem xor_ones_of_top_mask {j : Nat} (h : j ≤ 64) :
    (2 ^ 64 - 2 ^ j) ^^^ (2 ^ 64 - 1) = 2 ^ j - 1 := by
  apply Nat.eq_of_testBit_eq
  intro i
  rw [Nat.testBit_xor, testBit_two_pow_sub_two_pow h, Nat.testBit_two_pow_sub_one,
    Nat.testBit_two_pow_sub_one]
  by_cases h1 : j ≤ i
  · by_cases h2 : i < 64 <;> simp [h1, h2]
  · have h2 : i < 64 := by omega
    simp [h1, h2]
    omega

theorem div_mul_eq_iff {c n y : Nat} (hc : 0 < c) (hn : n % c = 0) :
    y / c * c = n ↔ n ≤ y ∧ y < n + c := by
  constructor
  · rintro rfl
    refine ⟨Nat.div_mul_le_self y c, ?_⟩
    have h1 := Nat.div_add_mod y c
    have h2 := Nat.mod_lt y hc
    have h3 : c * (y / c) = y / c * c := Nat.mul_comm _ _
    omega
  · rintro ⟨h1, h2⟩
    obtain ⟨q, rfl⟩ : ∃ q, n = q * c :=
      ⟨n / c, by
        rw [Nat.mul_comm]
        exact (Nat.mul_div_cancel' (Nat.dvd_of_mod_eq_zero hn)).symm⟩
    have e : (q + 1) * c = q * c + c := by ring
    rw [Nat.div_eq_of_lt_le h1 (by omega)]

/-! ## Canonical form of the mask and of the range -/

theorem u64max_shl_mod {k : Nat} (hk : k ≤ 63) :
    (U64MAX <<< k) % 2 ^ 64 = 2 ^ 64 - 2 ^ k := by
  rw [Nat.shiftLeft_eq]
  unfold U64MAX
  have h1 : 1 ≤ 2 ^ k := Nat.one_le_two_pow
  have h2 : (2:Nat) ^ k ≤ 2 ^ 63 := Nat.pow_le_pow_right (by norm_num) hk
  have h3 : (2:Nat) ^ 63 ≤ 2 ^ 64 := by norm_num
  omega

theorem mask_canonical {p : IPv6Prefix} (h : p.len ≤ 128) :
    p.mask = ⟨2 ^ 64 - 2 ^ hostHigh p.len, 2 ^ 64 - 2 ^ hostLow p.len⟩ := by
  unfold IPv6Prefix.mask hostHigh hostLow
  by_cases h0 : p.len = 0
  · rw [if_pos h0, h0]
    decide
  · rw [if_neg h0]
    by_cases h64 : 64 ≤ p.len
    · have hm : min p.len 64 = 64 := by omega
      have hx : max p.len 64 = p.len := by omega
      rw [if_pos h64, hm, hx]
      by_cases h64' : p.len ≤ 64
      · have e : p.len = 64 := by omega
        rw [if_pos h64', e]
        unfold U64MAX
        norm_num
      · rw [if_neg h64', u64max_shl_mod (by omega)]
        unfold U64MAX
        norm_num
    · have hm : min p.len 64 = p.len := by omega
      have hx : max p.len 64 = 64 := by omega
      rw [if_neg h64, if_pos (by omega : p.len ≤ 64), hm, hx,
        u64max_shl_mod (by omega)]
      norm_num

theorem range_canonical {p : IPv6Prefix} (hw : p.addr.Wf) (hl : p.len ≤ 128) :
    p.range =
      (⟨p.addr.high / 2 ^ hostHigh p.len * 2 ^ hostHigh p.len,
        p.addr.low / 2 ^ hostLow p.len * 2 ^ hostLow p.len⟩,
       ⟨p.addr.high / 2 ^ hostHigh p.len * 2 ^ hostHigh p.len + (2 ^ hostHigh p.len - 1),
        p.addr.low / 2 ^ hostLow p.len * 2 ^ hostLow p.len + (2 ^ hostLow p.len - 1)⟩) := by
  have hh : hostHigh p.len ≤ 64 := by unfold hostHigh; omega
  have hl2 : hostLow p.len ≤ 64 := by unfold hostLow; omega
  unfold IPv6Prefix.range
  rw [mask_canonical hl]
  unfold IPv6Addr.bitand IPv6Addr.bitor IPv6Addr.bitnot U64MAX
  dsimp only
  rw [and_top_mask hh hw.1, and_top_mask hl2 hw.2,
    xor_ones_of_top_mask hh, xor_ones_of_top_mask hl2,
    or_of_disjoint (Nat.mul_mod_left _ _) (Nat.sub_lt (Nat.two_pow_pos _) Nat.one_pos),
    or_of_disjoint (Nat.mul_mod_left _ _) (Nat.sub_lt (Nat.two_pow_pos _) Nat.one_pos)]

theorem net_add_lt {j a : Nat} (hj : j ≤ 64) (ha : a < 2 ^ 64) :
    a / 2 ^ j * 2 ^ j + (2 ^ j - 1) < 2 ^ 64 := by
  have hp : (0:Nat) < 2 ^ j := Nat.two_pow_pos j
  have hm : 2 ^ (64 - j) * 2 ^ j = 2 ^ 64 := by
    rw [← Nat.pow_add]
    congr 1
    omega
  have hq : a / 2 ^ j < 2 ^ (64 - j) := (Nat.div_lt_iff_lt_mul hp).mpr (by omega)
  have h2 : (a / 2 ^ j + 1) * 2 ^ j ≤ 2 ^ (64 - j) * 2 ^ j :=
    Nat.mul_le_mul_right _ (Nat.succ_le_of_lt hq)
  have h3 : (a / 2 ^ j + 1) * 2 ^ j = a / 2 ^ j * 2 ^ j + 2 ^ j := by ring
  omega

theorem range_wf {p : IPv6Prefix} (hw : p.addr.Wf) (hl : p.len ≤ 128) :
    p.range.1.Wf ∧ p.range.2.Wf := by
  have hh : hostHigh p.len ≤ 64 := by unfold hostHigh; omega
  have hl2 : hostLow p.len ≤ 64 := by unfold hostLow; omega
  rw [range_canonical hw hl]
  have b1 := net_add_lt hh hw.1
  have b2 := net_add_lt hl2 hw.2
  constructor <;> constructor <;> dsimp <;> omega

theorem le_iff_lex {a b : IPv6Addr} :
    a.le b = true ↔ (a.high < b.high ∨ (a.high = b.high ∧ a.low ≤ b.low)) := by
  unfold IPv6Addr.le
  simp

theorem le_iff_toNat {a b : IPv6Addr} (ha : a.Wf) (hb : b.Wf) :
    a.le b = true ↔ a.toNat ≤ b.toNat := by
  obtain ⟨h1, h2⟩ := ha
  obtain ⟨h3, h4⟩ := hb
  rw [le_iff_lex]
  unfold IPv6Addr.toNat
  omega

theorem net_le_bcast {p : IPv6Prefix} (hw : p.addr.Wf) (hl : p.len ≤ 128) :
    p.range.1.le p.range.2 = true := by
  rw [range_canonical hw hl, le_iff_lex]
  dsimp
  omega

theorem mem_range_iff {p : IPv6Prefix} (hw : p.addr.Wf) (hl : p.len ≤ 128)
    {x : IPv6Addr} (hx : x.Wf) :
    x.bitand p.mask = p.range.1 ↔
      (p.range.1.le x = true ∧ x.le p.range.2 = true) := by
  obtain ⟨hx1, hx2⟩ := hx
  have hh : hostHigh p.len ≤ 64 := by unfold hostHigh; omega
  have hl2 : hostLow p.len ≤ 64 := by unfold hostLow; omega
  rw [mask_canonical hl, range_canonical hw hl]
  unfold IPv6Addr.bitand
  dsimp only
  rw [le_iff_lex, le_iff_lex]
  dsimp only
  simp only [IPv6Addr.mk.injEq]
  rw [and_top_mask hh hx1, and_top_mask hl2 hx2,
    div_mul_eq_iff (Nat.two_pow_pos _) (Nat.mul_mod_left _ _),
    div_mul_eq_iff (Nat.two_pow_pos _) (Nat.mul_mod_left _ _)]
  rcases le_or_lt p.len 64 with hc | hc
  · have e1 : hostLow p.len = 64 := by unfold hostLow; omega
    rw [e1]
    have hB : p.addr.low / 2 ^ 64 = 0 := Nat.div_eq_of_lt hw.2
    rw [hB]
    simp only [Nat.zero_mul]
    have h1 : 1 ≤ 2 ^ hostHigh p.len := Nat.one_le_two_pow
    generalize p.addr.high / 2 ^ hostHigh p.len * 2 ^ hostHigh p.len = A
    generalize 2 ^ hostHigh p.len = J at h1 ⊢
    omega
  · have e1 : hostHigh p.len = 0 := by unfold hostHigh; omega
    rw [e1]
    simp only [pow_zero, Nat.div_one, Nat.mul_one]
    have h1 : 1 ≤ 2 ^ hostLow p.len := Nat.one_le_two_pow
    generalize p.addr.low / 2 ^ hostLow p.len * 2 ^ hostLow p.len = B
    generalize 2 ^ hostLow p.len = J at h1 ⊢
    omega

/-! ## Inversion facts about the parser -/

theorem parseU16Hex_bound {g : List Char} {v : Nat} (h : parseU16Hex g = some v) :
    v ≤ 65535 := by
  unfold parseU16Hex at h
  split at h
  · split at h
    · cases h
      assumption
    · cases h
  · cases h

theorem parseU8_bound {l : List Char} {v : Nat} (h : parseU8 l = some v) :
    v ≤ 255 := by
  unfold parseU8 at h
  split at h
  · split at h
    · cases h
      assumption
    · cases h
  · cases h

theorem parseSeg_error {g : List Char} {e : ParseErr}
    (h : parseSeg g = Except.error e) : e = ParseErr.MalformedSegment := by
  unfold parseSeg at h
  split at h
  · cases h
  · cases h
    rfl

theorem parseSegs_error {gs : List (List Char)} {e : ParseErr}
    (h : parseSegs gs = Except.error e) : e = ParseErr.MalformedSegment := by
  induction gs with
  | nil => exact absurd h (by simp [parseSegs])
  | cons g gs ih =>
    unfold parseSegs at h
    cases hpe : parseSeg g with
    | error e' =>
      rw [hpe] at h
      cases h
      exact parseSeg_error hpe
    | ok v =>
      rw [hpe] at h
      cases hr : parseSegs gs with
      | error e' =>
        rw [hr] at h
        cases h
        exact ih hr
      | ok vs =>
        rw [hr] at h
        cases h

theorem parseSegs_ok_length {gs : List (List Char)} {vs : List Nat}
    (h : parseSegs gs = Except.ok vs) : vs.length = gs.length := by
  induction gs generalizing vs with
  | nil =>
    unfold parseSegs at h
    cases h
    rfl
  | cons g gs ih =>
    unfold parseSegs at h
    cases hpe : parseSeg g with
    | error e' => rw [hpe] at h; cases h
    | ok v =>
      rw [hpe] at h
      cases hr : parseSegs gs with
      | error e' => rw [hr] at h; cases h
      | ok ws =>
        rw [hr] at h
        cases h
        simp [ih hr]

theorem parseSegs_ok_bound {gs : List (List Char)} {vs : List Nat}
    (h : parseSegs gs = Except.ok vs) : ∀ v ∈ vs, v ≤ 65535 := by
  induction gs generalizing vs with
  | nil =>
    unfold parseSegs at h
    cases h
    intro v hv
    cases hv
  | cons g gs ih =>
    unfold parseSegs at h
    cases hpe : parseSeg g with
    | error e' => rw [hpe] at h; cases h
    | ok v =>
      rw [hpe] at h
      cases hr : parseSegs gs with
      | error e' => rw [hr] at h; cases h
      | ok ws =>
        rw [hr] at h
        cases h
        intro w hw
        rcases List.mem_cons.mp hw with hw | hw
        · subst hw
          unfold parseSeg at hpe
          cases hx : parseU16Hex g with
          | none => rw [hx] at hpe; cases hpe
          | some u =>
            rw [hx] at hpe
            cases hpe
            exact parseU16Hex_bound hx
        · exact ih hr w hw

theorem parseSegs_bad {gs : List (List Char)} {g : List Char}
    (hg : g ∈ gs) (hbad : parseU16Hex g = none) :
    parseSegs gs = Except.error ParseErr.MalformedSegment := by
  induction gs with
  | nil => cases hg
  | cons g' gs ih =>
    unfold parseSegs
    cases hpe : parseU16Hex g' with
    | none => simp [parseSeg, hpe]
    | some v =>
      rcases List.mem_cons.mp hg with hg | hg
      · subst hg
        rw [hpe] at hbad
        cases hbad
      · rw [ih hg]
        simp [parseSeg, hpe]

theorem getD_zero_bound : ∀ (l : List Nat) (i : Nat) {B : Nat}, 0 < B →
    (∀ v ∈ l, v < B) → l.getD i 0 < B
  | [], i, _, hB, _ => by simpa [List.getD] using hB
  | v :: l, 0, _, _, h => by
    simpa [List.getD] using h v (by simp)
  | v :: l, i + 1, _, hB, h => by
    simpa [List.getD] using getD_zero_bound l i hB fun w hw => h w (by simp [hw])

theorem packAddr_wf {segs : List Nat} (h : ∀ v ∈ segs, v ≤ 65535) :
    (packAddr segs).Wf := by
  have hb : ∀ i : Nat, segs.getD i 0 < 2 ^ 64 := fun i =>
    getD_zero_bound segs i (by norm_num)
      fun v hv => Nat.lt_of_le_of_lt (h v hv) (by norm_num)
  have hm : ∀ x : Nat, x % 2 ^ 64 < 2 ^ 64 := fun x => Nat.mod_lt x (Nat.two_pow_pos 64)
  unfold packAddr IPv6Addr.Wf
  exact ⟨Nat.or_lt_two_pow (Nat.or_lt_two_pow (Nat.or_lt_two_pow (hm _) (hm _)) (hm _)) (hb 3),
         Nat.or_lt_two_pow (Nat.or_lt_two_pow (Nat.or_lt_two_pow (hm _) (hm _)) (hm _)) (hb 7)⟩

theorem fromStr_ok_wf {s : List Char} {p : IPv6Prefix}
    (h : IPv6Prefix.fromStr s = Except.ok p) : p.addr.Wf ∧ p.len ≤ 128 := by
  unfold IPv6Prefix.fromStr at h
  cases hsp : splitOnceSlash s with
  | none => rw [hsp] at h; cases h
  | some q =>
    obtain ⟨ipStr, lenStr⟩ := q
    rw [hsp] at h
    dsimp only at h
    cases hpu : parseU8 lenStr with
    | none => rw [hpu] at h; cases h
    | some len =>
      rw [hpu] at h
      dsimp only at h
      by_cases hlen : 128 < len
      · rw [if_pos hlen] at h; cases h
      · rw [if_neg hlen] at h
        by_cases hparts : 2 < (splitCC ipStr).length
        · rw [if_pos hparts] at h; cases h
        · rw [if_neg hparts] at h
          by_cases hcount :
              8 < (headGroups (splitCC ipStr)).length + (tailGroups (splitCC ipStr)).length
          · rw [if_pos hcount] at h; cases h
          · rw [if_neg hcount] at h
            cases hhs : parseSegs (headGroups (splitCC ipStr)) with
            | error e => rw [hhs] at h; cases h
            | ok hs =>
              rw [hhs] at h
              cases hts : parseSegs (tailGroups (splitCC ipStr)) with
              | error e => rw [hts] at h; cases h
              | ok ts =>
                rw [hts] at h
                cases h
                refine ⟨packAddr_wf ?_, by dsimp only; omega⟩
                intro v hv
                rcases List.mem_append.mp hv with hv | hv
                · rcases List.mem_append.mp hv with hv | hv
                  · exact parseSegs_ok_bound hhs v hv
                  · rw [List.eq_of_mem_replicate hv]
                    omega
                · exact parseSegs_ok_bound hts v hv

/-! ## C1: overlap decides shared-address existence -/

/-- C1: for every two successfully parsed prefixes `p` and `q`,
`p.overlaps q` returns `true` iff some 128-bit address `x` lies in both
prefixes' address sets, i.e. `x AND p.mask = p`'s network and
`x AND q.mask = q`'s network. -/
theorem overlaps_iff_shared (s t : List Char) (p q : IPv6Prefix)
    (h : IPv6Prefix.fromStr s = Except.ok p)
    (h' : IPv6Prefix.fromStr t = Except.ok q) :
    p.overlaps q = true ↔
      ∃ x : IPv6Addr, x.Wf ∧ x.bitand p.mask = p.range.1 ∧
        x.bitand q.mask = q.range.1 := by
  obtain ⟨hwp, hlp⟩ := fromStr_ok_wf h
  obtain ⟨hwq, hlq⟩ := fromStr_ok_wf h'
  obtain ⟨hn1, hb1⟩ := range_wf hwp hlp
  obtain ⟨hn2, hb2⟩ := range_wf hwq hlq
  have hnb1 := net_le_bcast hwp hlp
  have hnb2 := net_le_bcast hwq hlq
  unfold IPv6Prefix.overlaps
  dsimp only
  rw [Bool.and_eq_true]
  rw [le_iff_toNat hn1 hb1] at hnb1
  rw [le_iff_toNat hn2 hb2] at hnb2
  constructor
  · rintro ⟨h1, h2⟩
    rw [le_iff_toNat hn1 hb2] at h1
    rw [le_iff_toNat hn2 hb1] at h2
    by_cases hm : p.range.1.toNat ≤ q.range.1.toNat
    · refine ⟨q.range.1, hn2, ?_, ?_⟩
      · rw [mem_range_iff hwp hlp hn2, le_iff_toNat hn1 hn2, le_iff_toNat hn2 hb1]
        exact ⟨hm, h2⟩
      · rw [mem_range_iff hwq hlq hn2, le_iff_toNat hn2 hn2, le_iff_toNat hn2 hb2]
        exact ⟨le_refl _, hnb2⟩
    · refine ⟨p.range.1, hn1, ?_, ?_⟩
      · rw [mem_range_iff hwp hlp hn1, le_iff_toNat hn1 hn1, le_iff_toNat hn1 hb1]
        exact ⟨le_refl _, hnb1⟩
      · rw [mem_range_iff hwq hlq hn1, le_iff_toNat hn2 hn1, le_iff_toNat hn1 hb2]
        exact ⟨by omega, h1⟩
  · rintro ⟨x, hx, hxp, hxq⟩
    rw [mem_range_iff hwp hlp hx] at hxp
    rw [mem_range_iff hwq hlq hx] at hxq
    obtain ⟨hp1, hp2⟩ := hxp
    obtain ⟨hq1, hq2⟩ := hxq
    rw [le_iff_toNat hn1 hx] at hp1
    rw [le_iff_toNat hx hb1] at hp2
    rw [le_iff_toNat hn2 hx] at hq1
    rw [le_iff_toNat hx hb2] at hq2
    rw [le_iff_toNat hn1 hb2, le_iff_toNat hn2 hb1]
    exact ⟨by omega, by omega⟩

/-- Witness for C1 at the spec's concrete scenario 1:
`2001:db8::/32` versus `2001:db8::1/128`. -/
theorem overlaps_iff_shared_witness :
    IPv6Prefix.fromStr "2001:db8::/32".toList =
        Except.ok ⟨⟨0x20010db800000000, 0⟩, 32⟩ ∧
    IPv6Prefix.fromStr "2001:db8::1/128".toList =
        Except.ok ⟨⟨0x20010db800000000, 1⟩, 128⟩ ∧
    (IPv6Prefix.overlaps ⟨⟨0x20010db800000000, 0⟩, 32⟩ ⟨⟨0x20010db800000000, 1⟩, 128⟩ = true ↔
      ∃ x : IPv6Addr, x.Wf ∧
        x.bitand (IPv6Prefix.mask ⟨⟨0x20010db800000000, 0⟩, 32⟩) =
          (IPv6Prefix.range ⟨⟨0x20010db800000000, 0⟩, 32⟩).1 ∧
        x.bitand (IPv6Prefix.mask ⟨⟨0x20010db800000000, 1⟩, 128⟩) =
          (IPv6Prefix.range ⟨⟨0x20010db800000000, 1⟩, 128⟩).1) :=
  ⟨by rfl, by rfl,
   overlaps_iff_shared ("2001:db8::/32".toList) ("2001:db8::1/128".toList) _ _
     (by rfl) (by rfl)⟩

/-! ## C2: the mask has exactly the top `len` bits set -/

theorem toNat_mask {p : IPv6Prefix} (h : p.len ≤ 128) :
    p.mask.toNat = 2 ^ 128 - 2 ^ (128 - p.len) := by
  rw [mask_canonical h]
  unfold IPv6Addr.toNat hostHigh hostLow
  dsimp only
  rcases le_or_lt p.len 64 with hc | hc
  · have e1 : min p.len 64 = p.len := by omega
    have e2 : max p.len 64 = 64 := by omega
    rw [e1, e2]
    have e3 : (2:Nat) ^ (64 - p.len) * 2 ^ 64 = 2 ^ (128 - p.len) := by
      rw [← Nat.pow_add]
      congr 1
      omega
    have h1 : (2:Nat) ^ (64 - p.len) ≤ 2 ^ 64 := Nat.pow_le_pow_right (by norm_num) (by omega)
    omega
  · have e1 : min p.len 64 = 64 := by omega
    have e2 : max p.len 64 = p.len := by omega
    rw [e1, e2]
    have e3 : (2:Nat) ^ (128 - p.len) ≤ 2 ^ 64 := Nat.pow_le_pow_right (by norm_num) (by omega)
    norm_num
    omega

/-- C2: for every length in `[0, 128]`, `mask()` has exactly the top `len`
bits of the 128-bit value set (bit `i` is set iff `128 - len ≤ i`); in
particular it is all-zero for length 0, all-ones for length 128, and
`high = all-ones, low = 0` for length 64. -/
theorem mask_top_bits (p : IPv6Prefix) (h : p.len ≤ 128) :
    (∀ i, i < 128 → p.mask.toNat.testBit i = decide (128 - p.len ≤ i)) ∧
    (p.len = 0 → p.mask = ⟨0, 0⟩) ∧
    (p.len = 128 → p.mask = ⟨U64MAX, U64MAX⟩) ∧
    (p.len = 64 → p.mask = ⟨U64MAX, 0⟩) := by
  refine ⟨?_, ?_, ?_, ?_⟩
  · intro i hi
    rw [toNat_mask h, testBit_two_pow_sub_two_pow (by omega)]
    simp [hi]
  · intro e
    rw [mask_canonical h, e]
    decide
  · intro e
    rw [mask_canonical h, e]
    decide
  · intro e
    rw [mask_canonical h, e]
    decide

/-- Witness for C2 at length 64. -/
theorem mask_top_bits_witness :
    ((64:Nat) ≤ 128) ∧
    ((∀ i, i < 128 →
        (IPv6Prefix.mask ⟨⟨0, 0⟩, 64⟩).toNat.testBit i = decide (128 - (64:Nat) ≤ i)) ∧
     ((64:Nat) = 0 → IPv6Prefix.mask ⟨⟨0, 0⟩, 64⟩ = ⟨0, 0⟩) ∧
     ((64:Nat) = 128 → IPv6Prefix.mask ⟨⟨0, 0⟩, 64⟩ = ⟨U64MAX, U64MAX⟩) ∧
     ((64:Nat) = 64 → IPv6Prefix.mask ⟨⟨0, 0⟩, 64⟩ = ⟨U64MAX, 0⟩)) :=
  ⟨by decide, mask_top_bits ⟨⟨0, 0⟩, 64⟩ (by decide)⟩

/-! ## C3: the range formula and host-bit independence -/

/-- C3: `range()` returns `(network, network OR NOT mask)` with
`network = addr AND mask`, and the result depends only on the masked
network bits: two prefixes of the same length whose masked addresses agree
have the same range, whatever their host bits are. -/
theorem range_masked (p q : IPv6Prefix) :
    p.range = (p.addr.bitand p.mask, (p.addr.bitand p.mask).bitor p.mask.bitnot) ∧
    (p.len = q.len → p.addr.bitand p.mask = q.addr.bitand q.mask →
      p.range = q.range) := by
  constructor
  · rfl
  · intro h1 h2
    have hm : p.mask = q.mask := by
      unfold IPv6Prefix.mask
      rw [h1]
    unfold IPv6Prefix.range
    dsimp only
    rw [h2, hm]

/-- Witness for C3: two /64 prefixes that differ only in host bits have
identical ranges. -/
theorem range_masked_witness :
    ((64:Nat) = 64) ∧
    IPv6Addr.bitand ⟨3, 99⟩ (IPv6Prefix.mask ⟨⟨3, 99⟩, 64⟩) =
      IPv6Addr.bitand ⟨3, 42⟩ (IPv6Prefix.mask ⟨⟨3, 42⟩, 64⟩) ∧
    IPv6Prefix.range ⟨⟨3, 99⟩, 64⟩ = IPv6Prefix.range ⟨⟨3, 42⟩, 64⟩ :=
  ⟨rfl, by decide, (range_masked ⟨⟨3, 99⟩, 64⟩ ⟨⟨3, 42⟩, 64⟩).2 rfl (by decide)⟩

/-! ## C6: symmetry and totality of overlaps -/

/-- C6: `overlaps` is symmetric, and (being a total `Bool`-valued
function of two already-validated prefixes) it always returns one of the
two boolean values — it cannot fail. -/
theorem overlaps_symmetric (p q : IPv6Prefix) :
    p.overlaps q = q.overlaps p ∧ (p.overlaps q = true ∨ p.overlaps q = false) := by
  constructor
  · unfold IPv6Prefix.overlaps
    dsimp only
    exact Bool.and_comm _ _
  · rcases Bool.eq_false_or_eq_true (p.overlaps q) with h | h
    · exact Or.inl h
    · exact Or.inr h


/-! ## C8: the order used by overlaps is the numeric 128-bit order -/

/-- C8: the derived lexicographic `<=` on `(high, low)` coincides with the
numeric order on `high * 2^64 + low`, and two addresses have equal numeric
value exactly when both halves agree. -/
theorem le_matches_numeric (a b : IPv6Addr) (h : a.Wf) (h' : b.Wf) :
    (a.le b = true ↔ a.toNat ≤ b.toNat) ∧
    (a.le b = true ↔ (a.high < b.high ∨ (a.high = b.high ∧ a.low ≤ b.low))) ∧
    (a.toNat = b.toNat ↔ (a.high = b.high ∧ a.low = b.low)) := by
  refine ⟨le_iff_toNat h h', le_iff_lex, ?_⟩
  obtain ⟨h1, h2⟩ := h
  obtain ⟨h3, h4⟩ := h'
  unfold IPv6Addr.toNat
  omega

/-- Witness for C8. -/
theorem le_matches_numeric_witness :
    IPv6Addr.Wf ⟨1, 5⟩ ∧ IPv6Addr.Wf ⟨2, 3⟩ ∧
    ((IPv6Addr.le ⟨1, 5⟩ ⟨2, 3⟩ = true ↔ IPv6Addr.toNat ⟨1, 5⟩ ≤ IPv6Addr.toNat ⟨2, 3⟩) ∧
     (IPv6Addr.le ⟨1, 5⟩ ⟨2, 3⟩ = true ↔ ((1:Nat) < 2 ∨ ((1:Nat) = 2 ∧ (5:Nat) ≤ 3))) ∧
     (IPv6Addr.toNat ⟨1, 5⟩ = IPv6Addr.toNat ⟨2, 3⟩ ↔ ((1:Nat) = 2 ∧ (5:Nat) = 3))) :=
  ⟨by decide, by decide, le_matches_numeric ⟨1, 5⟩ ⟨2, 3⟩ (by decide) (by decide)⟩

/-! ## C9: no shift by 64 or more is ever executed in mask() -/

/-- C9: for every length in `[0, 128]`, the checked variant of `mask()`
(which fails instead of executing any 64-bit shift whose amount is 64 or
more) succeeds and agrees with `mask()`: on the branch that executes it,
each shift amount (`64 - len` for the high half, `128 - len` for the low
half) is strictly below 64. -/
theorem maskChecked_no_wide_shift (p : IPv6Prefix) (h : p.len ≤ 128) :
    p.maskChecked = some p.mask := by
  unfold IPv6Prefix.maskChecked IPv6Prefix.mask shl64
  by_cases h0 : p.len = 0
  · rw [if_pos h0, if_pos h0]
  · rw [if_neg h0, if_neg h0]
    by_cases h64 : 64 ≤ p.len
    · by_cases h64' : p.len ≤ 64
      · rw [if_pos h64, if_pos h64, if_pos h64', if_pos h64']
      · rw [if_pos h64, if_pos h64, if_neg h64', if_neg h64',
          if_pos (show 128 - p.len < 64 by omega)]
    · rw [if_neg h64, if_neg h64, if_pos (show 64 - p.len < 64 by omega),
        if_pos (show p.len ≤ 64 by omega), if_pos (show p.len ≤ 64 by omega)]

/-- Witness for C9 at length 100. -/
theorem maskChecked_no_wide_shift_witness :
    ((100:Nat) ≤ 128) ∧
    IPv6Prefix.maskChecked ⟨⟨0, 0⟩, 100⟩ = some (IPv6Prefix.mask ⟨⟨0, 0⟩, 100⟩) :=
  ⟨by decide, maskChecked_no_wide_shift ⟨⟨0, 0⟩, 100⟩ (by decide)⟩

/-! ## C7: more than one zero-compression marker -/

/-- C7: for an input `<addr>/<len>` whose length field parses (as `u8`) with
value at most 128, if the address part splits on `::` into more than two
pieces, parsing fails with `MultipleZeroCompression`. -/
theorem multiple_cc_error (s a l : List Char) (v : Nat)
    (h : splitOnceSlash s = some (a, l)) (h' : parseU8 l = some v)
    (g : v ≤ 128) (g' : 2 < (splitCC a).length) :
    IPv6Prefix.fromStr s = Except.error ParseErr.MultipleZeroCompression := by
  unfold IPv6Prefix.fromStr
  rw [h]
  dsimp only
  rw [h']
  dsimp only
  rw [if_neg (by omega : ¬ 128 < v), if_pos g']

/-- Witness for C7 at the spec's concrete scenario 6: `2001:db8::1::2/64`. -/
theorem multiple_cc_error_witness :
    splitOnceSlash "2001:db8::1::2/64".toList =
        some ("2001:db8::1::2".toList, "64".toList) ∧
    parseU8 "64".toList = some 64 ∧ (64:Nat) ≤ 128 ∧
    2 < (splitCC "2001:db8::1::2".toList).length ∧
    IPv6Prefix.fromStr "2001:db8::1::2/64".toList =
      Except.error ParseErr.MultipleZeroCompression :=
  ⟨by decide, by decide, by decide, by decide,
   multiple_cc_error "2001:db8::1::2/64".toList "2001:db8::1::2".toList
     "64".toList 64 (by decide) (by decide) (by decide) (by decide)⟩

/-! ## C4: errors of the length field -/

/-- C4 (counterexample): `"256"` parses as an unsigned decimal integer with
value 256 > 128, yet `"::/256"` fails with `MalformedLength` (the `u8`
parse itself overflows), not with `LengthOutOfRange`. -/
theorem length_error_cex :
    parseDecNat "256".toList = some 256 ∧ (128:Nat) < 256 ∧
    IPv6Prefix.fromStr "::/256".toList = Except.error ParseErr.MalformedLength ∧
    IPv6Prefix.fromStr "::/256".toList ≠ Except.error ParseErr.LengthOutOfRange := by
  refine ⟨by decide, by decide, by decide, by decide⟩

/-- C4 (amended): when the substring after the first `/` parses as a `u8`
(value at most 255) with value greater than 128, parsing fails with
`LengthOutOfRange`; when it is a decimal integer greater than 255, the `u8`
parse overflows and parsing fails with `MalformedLength` instead. -/
theorem length_error_amended :
    (∀ s a l v, splitOnceSlash s = some (a, l) → parseU8 l = some v → 128 < v →
        IPv6Prefix.fromStr s = Except.error ParseErr.LengthOutOfRange) ∧
    (∀ s a l v, splitOnceSlash s = some (a, l) → parseDecNat l = some v → 255 < v →
        IPv6Prefix.fromStr s = Except.error ParseErr.MalformedLength) := by
  constructor
  · intro s a l v h1 h2 h3
    unfold IPv6Prefix.fromStr
    rw [h1]
    dsimp only
    rw [h2]
    dsimp only
    rw [if_pos h3]
  · intro s a l v h1 h2 h3
    have hp : parseU8 l = none := by
      unfold parseU8
      rw [h2]
      dsimp only
      rw [if_neg (by omega)]
    unfold IPv6Prefix.fromStr
    rw [h1]
    dsimp only
    rw [hp]

/-- Witness for the amended C4, at `::/129` and `::/300`. -/
theorem length_error_amended_witness :
    IPv6Prefix.fromStr "::/129".toList = Except.error ParseErr.LengthOutOfRange ∧
    IPv6Prefix.fromStr "::/300".toList = Except.error ParseErr.MalformedLength :=
  ⟨length_error_amended.1 "::/129".toList "::".toList "129".toList 129
     (by decide) (by decide) (by decide),
   length_error_amended.2 "::/300".toList "::".toList "300".toList 300
     (by decide) (by decide) (by decide)⟩

/-! ## C10: lenient group count when no `::` is present -/

/-- C10: for an input `<addr>/<len>` with a well-formed length at most 128,
when the address part contains no `::` marker (its `::`-split is just the
address itself) and its head groups (the `:`-split, or no groups at all for
an empty address part) all parse as hextets, parsing succeeds for any group
count `k ≤ 8`: the `k` parsed groups are packed at the front and the
remaining `8 - k` trailing groups are zero-filled. -/
theorem no_marker_lenient (s a l : List Char) (v : Nat) (w : List Nat)
    (h : splitOnceSlash s = some (a, l)) (h' : parseU8 l = some v)
    (g : v ≤ 128) (g' : splitCC a = [a])
    (f : parseSegs (headGroups [a]) = Except.ok w) (f' : w.length ≤ 8) :
    IPv6Prefix.fromStr s =
      Except.ok ⟨packAddr (w ++ List.replicate (8 - w.length) 0), v⟩ := by
  have hlen : (headGroups [a]).length = w.length := (parseSegs_ok_length f).symm
  have htail : tailGroups [a] = [] := rfl
  unfold IPv6Prefix.fromStr
  rw [h]
  dsimp only
  rw [h']
  dsimp only
  rw [if_neg (by omega : ¬ 128 < v), g', htail]
  dsimp only [List.length_singleton, List.length_nil]
  rw [if_neg (by omega : ¬ 2 < 1), hlen, if_neg (by omega : ¬ 8 < w.length + 0), f]
  dsimp only [parseSegs]
  rw [List.append_nil, Nat.add_zero]

/-- Witness for C10 at the empty address part: `"/64"` parses, with the
zero-fill producing the all-zero address. -/
theorem no_marker_lenient_witness :
    splitOnceSlash "/64".toList = some ([], "64".toList) ∧
    parseU8 "64".toList = some 64 ∧ (64:Nat) ≤ 128 ∧
    splitCC [] = [[]] ∧ parseSegs (headGroups [[]]) = Except.ok [] ∧
    IPv6Prefix.fromStr "/64".toList =
      Except.ok ⟨packAddr ([] ++ List.replicate 8 0), 64⟩ ∧
    packAddr ([] ++ List.replicate 8 0) = ⟨0, 0⟩ :=
  ⟨by decide, by decide, by decide, by decide, by decide,
   no_marker_lenient "/64".toList [] "64".toList 64 []
     (by decide) (by decide) (by decide) (by decide) (by decide) (by decide),
   by decide⟩

/-! ## C5: which groups parse, and the error they cause -/

/-- C5 (counterexample): the five-digit group `"00000"` is not a string of
1 to 4 hexadecimal digits, yet `u16::from_str_radix` accepts it (value 0)
and `"00000::/0"` parses successfully instead of failing with
`MalformedSegment`. -/
theorem hex_group_cex :
    ¬ specHex1to4 ['0', '0', '0', '0', '0'] ∧
    parseU16Hex ['0', '0', '0', '0', '0'] = some 0 ∧
    IPv6Prefix.fromStr "00000::/0".toList = Except.ok ⟨⟨0, 0⟩, 0⟩ ∧
    IPv6Prefix.fromStr "00000::/0".toList ≠ Except.error ParseErr.MalformedSegment := by
  refine ⟨by decide, by decide, by decide, by decide⟩

/-- C5 (amended): a group parses successfully iff it is an optional leading
`+` followed by one or more hexadecimal digits of value at most `0xFFFF`
(so the digit count is not limited to 4 when there are leading zeros); and
once the separator, length, `::`-count and group-count checks pass, any
group that fails this grammar makes parsing fail with `MalformedSegment`. -/
theorem hex_group_amended :
    (∀ g, (parseU16Hex g).isSome = true ↔ specHexGroup g) ∧
    (∀ s a l v g,
      splitOnceSlash s = some (a, l) → parseU8 l = some v → v ≤ 128 →
      (splitCC a).length ≤ 2 →
      (headGroups (splitCC a)).length + (tailGroups (splitCC a)).length ≤ 8 →
      g ∈ headGroups (splitCC a) ++ tailGroups (splitCC a) →
      parseU16Hex g = none →
      IPv6Prefix.fromStr s = Except.error ParseErr.MalformedSegment) := by
  constructor
  · intro g
    constructor
    · intro h
      obtain ⟨v, hv, hb⟩ : ∃ v, parseHexNat g = some v ∧ v ≤ 65535 := by
        unfold parseU16Hex at h
        cases hp : parseHexNat g with
        | none => rw [hp] at h; simp at h
        | some v =>
          rw [hp] at h
          dsimp only at h
          by_cases hb : v ≤ 65535
          · exact ⟨v, rfl, hb⟩
          · rw [if_neg hb] at h; simp at h
      unfold parseHexNat at hv
      cases g with
      | nil => cases hv
      | cons c cs =>
        dsimp only at hv
        by_cases hc : c = '+'
        · subst hc
          rw [if_pos rfl] at hv
          cases cs with
          | nil => simp at hv
          | cons x xs =>
            simp only [List.isEmpty_cons, Bool.false_eq_true, if_false] at hv
            exact ⟨x :: xs, v, Or.inr rfl, by simp, hv, hb⟩
        · rw [if_neg hc] at hv
          exact ⟨c :: cs, v, Or.inl rfl, by simp, hv, hb⟩
    · rintro ⟨d, v, hg, hne, hv, hb⟩
      have hval : parseHexNat g = some v := by
        rcases hg with hg | hg
        · rw [hg]
          unfold parseHexNat
          cases d with
          | nil => exact absurd rfl hne
          | cons c cs =>
            dsimp only
            by_cases hc : c = '+'
            · subst hc
              unfold hexDigitsVal at hv
              rw [show hexDigit '+' = none from rfl] at hv
              cases hv
            · rw [if_neg hc]
              exact hv
        · rw [hg]
          unfold parseHexNat
          dsimp only
          rw [if_pos rfl]
          cases d with
          | nil => exact absurd rfl hne
          | cons x xs => simpa using hv
      unfold parseU16Hex
      rw [hval]
      simp [hb]
  · intro s a l v g h1 h2 h3 h4 h5 h6 h7
    unfold IPv6Prefix.fromStr
    rw [h1]
    dsimp only
    rw [h2]
    dsimp only
    rw [if_neg (by omega : ¬ 128 < v), if_neg (by omega : ¬ 2 < (splitCC a).length),
      if_neg (by omega :
        ¬ 8 < (headGroups (splitCC a)).length + (tailGroups (splitCC a)).length)]
    rcases List.mem_append.mp h6 with hm | hm
    · rw [parseSegs_bad hm h7]
    · cases hh : parseSegs (headGroups (splitCC a)) with
      | error e =>
        have he : e = ParseErr.MalformedSegment := parseSegs_error hh
        subst he
        rfl
      | ok hs =>
        dsimp only
        rw [parseSegs_bad hm h7]

/-- Witness for the amended C5: the group `"zz"` is rejected and `"zz::/0"`
fails with `MalformedSegment`. -/
theorem hex_group_amended_witness :
    parseU16Hex "zz".toList = none ∧
    IPv6Prefix.fromStr "zz::/0".toList = Except.error ParseErr.MalformedSegment :=
  ⟨by decide,
   hex_group_amended.2 "zz::/0".toList "zz::".toList "0".toList 0 "zz".toList
     (by decide) (by decide) (by decide) (by decide) (by decide) (by decide) (by decide)⟩

/-- C7 (counterexample to the unconditional claim): the address part of
`"::1::2/129"` contains two `::` markers, yet parsing reports the earlier
length error, not `MultipleZeroCompression`. -/
theorem multiple_cc_cex :
    splitOnceSlash "::1::2/129".toList = some ("::1::2".toList, "129".toList) ∧
    2 < (splitCC "::1::2".toList).length ∧
    IPv6Prefix.fromStr "::1::2/129".toList = Except.error ParseErr.LengthOutOfRange ∧
    IPv6Prefix.fromStr "::1::2/129".toList ≠
      Except.error ParseErr.MultipleZeroCompression := by
  refine ⟨by decide, by decide, by decide, by decide⟩

/-- C10 (counterexample to the unconditional claim): the address part of
`"1:2:3/129"` has no `::` marker and three valid hextet groups, yet parsing
fails on the length field, so success additionally needs the earlier stages
to pass. -/
theorem no_marker_cex :
    splitCC "1:2:3".toList = ["1:2:3".toList] ∧
    parseSegs (headGroups ["1:2:3".toList]) = Except.ok [1, 2, 3] ∧
    IPv6Prefix.fromStr "1:2:3/129".toList = Except.error ParseErr.LengthOutOfRange := by
  refine ⟨by decide, by decide, by decide⟩
